import Mathlib

/-!
Verification of the actual-mcp-server core against its specification.

The development shallow-embeds the three non-trivial components of the
repository:

* the session/connection manager (`src/actual-connection.ts`,
  `ensureBudgetLoaded`), including a small-step interleaving model of
  concurrent invocations;
* the Mongo-backed annotation store (`src/context/mongodb-context-service.ts`:
  `setContext`, `getContext`, `searchContext`, `clearContext`), with the
  MongoDB operations (`findOneAndUpdate` upsert, `findOne`, `deleteOne`,
  `find`) modelled by their documented semantics over an in-memory list of
  documents with scalar values;
* the balance-history projector (`src/tools/accounts.ts`,
  `getAccountBalanceHistory`) and the generic amount-conversion transform
  (`src/tools/shared.ts`, `convertAmounts`).

External inputs (the ledger client, the environment, the clock) are passed as
explicit parameters; JavaScript calendar dates are modelled as integer day
numbers; currency amounts are integers (minor units) converted to rationals
by `integerToAmount`.
-/

namespace ActualMCP

/-! ## Session manager (`src/actual-connection.ts`) -/

/-- The two mutable fields of `ActualConnection`:
`isInitialized` and `currentBudgetId` (a string or `null`). -/
structure ConnState where
  isInitialized : Bool
  currentBudgetId : Option String
deriving DecidableEq, Repr

/-- A JavaScript `Error` as thrown by `new Error(message)`: the constructor
used in `actual-connection.ts` sets only the message; no `cause` option is
passed, so the `cause` field is absent (`none`). -/
structure JSError where
  message : String
  cause : Option String
deriving DecidableEq, Repr

/-- The error thrown when no budget id can be resolved
(`actual-connection.ts` lines 44-48). -/
def noBudgetIdError : JSError :=
  { message := "No budget ID provided. Set ACTUAL_BUDGET_ID environment variable or pass budgetId parameter. You can find your budget ID in Actual Budget > Settings > Advanced."
    cause := none }

/-- The error thrown when `api.downloadBudget` fails
(`actual-connection.ts` lines 58-63): a fresh `Error` whose message names the
attempted budget id; the caught cause is only logged, not attached. -/
def loadFailedError (targetBudgetId : String) : JSError :=
  { message := "Failed to load budget " ++ targetBudgetId ++ ". Check that the budget ID is correct and accessible. You can find your budget ID in Actual Budget > Settings > Advanced."
    cause := none }

/-- JavaScript truthiness of a `string | undefined` value:
`undefined` and the empty string are falsy. -/
def jsTruthy : Option String → Bool
  | none => false
  | some s => s ≠ ""

/-- JavaScript `a || b` on `string | undefined` values
(`budgetId || process.env.ACTUAL_BUDGET_ID`, line 42). -/
def jsOr (a b : Option String) : Option String :=
  if jsTruthy a then a else b

/-- Shallow embedding of `ActualConnection.ensureBudgetLoaded` (lines 38-68).
`downloadBudget` is the ledger client's `api.downloadBudget`, returning either
success or a failure cause message; `envBudgetId` is
`process.env.ACTUAL_BUDGET_ID`; `budgetId` the optional argument.  The result
is the returned value or thrown error, the state after the call, and the list
of budget ids for which a ledger download was issued (the call trace of
`api.downloadBudget`).  `ensureConnection` (lines 24-36) only sets
`isInitialized`; its filesystem and `api.init` effects are outside the model. -/
def ensureBudgetLoaded (downloadBudget : String → Except String Unit)
    (envBudgetId budgetId : Option String) (st : ConnState) :
    Except JSError String × ConnState × List String :=
  let st1 : ConnState := { st with isInitialized := true }
  match jsOr budgetId envBudgetId with
  | none => (.error noBudgetIdError, st1, [])
  | some t =>
    if t = "" then
      (.error noBudgetIdError, st1, [])
    else if st1.currentBudgetId = some t then
      (.ok t, st1, [])
    else
      match downloadBudget t with
      | .ok _ => (.ok t, { st1 with currentBudgetId := some t }, [t])
      | .error _ => (.error (loadFailedError t), st1, [t])

/-! ### Interleaving model of concurrent `ensureBudgetLoaded` invocations

`ensureBudgetLoaded` is an `async` method on a shared `ActualConnection`
instance used by every concurrent tool invocation.  Under JavaScript's
cooperative scheduling, the synchronous segment from reading
`this.currentBudgetId` (line 50) up to issuing `api.downloadBudget` (line 55)
runs atomically, and the `await` on the download is a yield point at which
other invocations may run; the assignment `this.currentBudgetId =
targetBudgetId` (line 56) happens atomically when the download resolves.
The code contains no lock, queue or single-flight guard. -/

/-- The phase of one in-flight `ensureBudgetLoaded` invocation: not yet at the
cache check, suspended on `await api.downloadBudget(target)`, or returned or
thrown. -/
inductive Phase where
  | start
  | downloading (target : String)
  | done (result : Except JSError String)

/-- One cooperative step of a single invocation with argument `req` against
environment default `env`, over the shared `currentBudgetId` cell.  The ledger
download outcome is nondeterministic (`downloadOk` / `downloadFail`). -/
inductive ThreadStep (env req : Option String) :
    Phase → Option String → Phase → Option String → Prop where
  | noBudget (cur : Option String)
      (h : jsOr req env = none ∨ jsOr req env = some "") :
      ThreadStep env req .start cur (.done (.error noBudgetIdError)) cur
  | cacheHit (cur : Option String) (t : String)
      (hres : jsOr req env = some t) (hne : t ≠ "") (hcur : cur = some t) :
      ThreadStep env req .start cur (.done (.ok t)) cur
  | beginDownload (cur : Option String) (t : String)
      (hres : jsOr req env = some t) (hne : t ≠ "") (hcur : cur ≠ some t) :
      ThreadStep env req .start cur (.downloading t) cur
  | downloadOk (cur : Option String) (t : String) :
      ThreadStep env req (.downloading t) cur (.done (.ok t)) (some t)
  | downloadFail (cur : Option String) (t : String) :
      ThreadStep env req (.downloading t) cur
        (.done (.error (loadFailedError t))) cur

/-- Joint state of two concurrent invocations and the shared
`currentBudgetId`. -/
structure Sys where
  th1 : Phase
  th2 : Phase
  current : Option String

/-- Interleaving semantics: at each step exactly one of the two invocations
advances. -/
inductive SysStep (env req1 req2 : Option String) : Sys → Sys → Prop where
  | left {s : Sys} {p : Phase} {c : Option String}
      (h : ThreadStep env req1 s.th1 s.current p c) :
      SysStep env req1 req2 s ⟨p, s.th2, c⟩
  | right {s : Sys} {p : Phase} {c : Option String}
      (h : ThreadStep env req2 s.th2 s.current p c) :
      SysStep env req1 req2 s ⟨s.th1, p, c⟩

/-! ## Balance projector (`src/tools/accounts.ts`, `getAccountBalanceHistory`)

Calendar days are modelled as integers (the JavaScript `Date` arithmetic
`setDate(getDate() - 1)` / `setDate(getDate() + 1)` and the comparison
`currentDate < endDate` become integer decrement/increment and `<`).  The
ledger is abstracted by `bal : Int → Int`, the result of
`api.getAccountBalance(accountId, d)` in minor units, and by the transaction
list the single `api.getTransactions` call returns. -/

/-- A ledger transaction as used by the projector: its calendar day and its
amount in integer minor units. -/
structure Transaction where
  date : Int
  amount : Int
deriving DecidableEq, Repr

/-- `integerToAmount` (`src/actual-api.ts` line 19): minor units to decimal
major units. -/
def integerToAmount (amount : Int) : ℚ := (amount : ℚ) / 100

/-- One emitted history point (`accounts.ts` lines 120-124). -/
structure HistoryPoint where
  date : Int
  endOfDayBalance : ℚ
  theoreticalPeakIntradayBalance : ℚ
deriving DecidableEq, Repr

/-- The reduction at `accounts.ts` lines 114-118: over the transactions of day
`d` (the group `groupedTransactions[currentDateStr]`), sum the amounts that
are truthy and strictly positive (`!!t.amount && t.amount > 0`). -/
def positiveDayAmounts (txns : List Transaction) (d : Int) : Int :=
  (txns.filter (fun t => t.date = d)).foldl
    (fun acc t => if t.amount ≠ 0 ∧ t.amount > 0 then acc + t.amount else acc) 0

/-- The `while (currentDate < endDate)` loop of `getAccountBalanceHistory`
(lines 105-128), with the remaining iteration count made explicit:
`dayBefore` is the mutable `dayBeforeBalance`, `d` the mutable `currentDate`. -/
def historyLoop (bal : Int → Int) (txns : List Transaction)
    (dayBefore : Int) (d : Int) : Nat → List HistoryPoint
  | 0 => []
  | n + 1 =>
    let currentDayBalance := bal d
    { date := d
      endOfDayBalance := integerToAmount currentDayBalance
      theoreticalPeakIntradayBalance :=
        integerToAmount (dayBefore + positiveDayAmounts txns d) } ::
      historyLoop bal txns currentDayBalance (d + 1) n

/-- Shallow embedding of `getAccountBalanceHistory` (`accounts.ts` lines
91-128): seeds `dayBeforeBalance` with the balance of the day before
`startDate` (lines 95-97) and iterates over the days of
`[startDate, endDate)`; the loop guard `currentDate < endDate` with unit
steps gives `(endDate - startDate).toNat` iterations. -/
def getAccountBalanceHistory (bal : Int → Int) (txns : List Transaction)
    (startDate endDate : Int) : List HistoryPoint :=
  historyLoop bal txns (bal (startDate - 1)) startDate (endDate - startDate).toNat

/-! ## Amount conversion (`src/tools/shared.ts`, `convertAmounts`) -/

/-- A JSON value as traversed by `convertAmounts`; `jnull` covers both `null`
and `undefined`. -/
inductive JValue where
  | jnull
  | jbool (b : Bool)
  | jnum (q : ℚ)
  | jstr (s : String)
  | jarr (elems : List JValue)
  | jobj (fields : List (String × JValue))

/-- The four field names rescaled by `convertAmounts`
(`shared.ts` lines 44-49). -/
def isAmountKey (k : String) : Bool :=
  k == "amount" || k == "balance" || k == "budgeted" || k == "spent"

mutual
/-- Shallow embedding of `convertAmounts` (`shared.ts` lines 32-59):
`null`/`undefined` and scalars are returned as-is, arrays are mapped, and in
an object each entry under an amount key is divided by 100 when its value is
a number and kept untouched otherwise, while every other entry is converted
recursively. -/
def convertAmounts : JValue → JValue
  | .jnull => .jnull
  | .jbool b => .jbool b
  | .jnum q => .jnum q
  | .jstr s => .jstr s
  | .jarr elems => .jarr (convertAmountsList elems)
  | .jobj fields => .jobj (convertAmountsObj fields)

/-- `obj.map(convertAmounts)` on an array (`shared.ts` line 36). -/
def convertAmountsList : List JValue → List JValue
  | [] => []
  | v :: vs => convertAmounts v :: convertAmountsList vs

/-- The `Object.entries` loop of `convertAmounts` (`shared.ts` lines 41-54). -/
def convertAmountsObj : List (String × JValue) → List (String × JValue)
  | [] => []
  | (k, v) :: fs =>
    (k,
      if isAmountKey k then
        match v with
        | .jnum q => .jnum (q / 100)
        | w => w
      else convertAmounts v) :: convertAmountsObj fs
end

/-! ## Annotation store (`src/context/mongodb-context-service.ts`)

The MongoDB collection `entity_contexts` is modelled as an in-memory list of
documents in insertion order.  The driver operations the service uses are
modelled by their documented semantics: `findOne`/`find` select by equality
against the filter, `deleteOne` removes the first matching document,
`findOneAndUpdate` with `upsert: true` and `returnDocument: 'after'` updates
the first matching document in place or appends a new one built from `$set`
and `$setOnInsert`.  Query and `context` values are modelled as scalars
(string / number / boolean), for which a Mongo equality match is plain
equality; `Date` timestamps are naturals. -/

/-- A scalar BSON/JSON value as stored in `context` fields and passed in
queries. -/
inductive Value where
  | str (s : String)
  | num (q : ℚ)
  | bool (b : Bool)
deriving DecidableEq, Repr

/-- An ordered string-to-value mapping (a plain JavaScript object). -/
abbrev ValueMap := List (String × Value)

/-- JavaScript object property access `m[k]`: the value of the first entry
with key `k`. -/
def lookupVal (m : ValueMap) (k : String) : Option Value :=
  (m.find? (fun kv => kv.1 == k)).map (fun kv => kv.2)

/-- The `EntityContext` document shape (`src/context/context.ts`): the
`entityType` field holds one of the strings `owner` / `account` / `budget` /
`transaction` / `category`. -/
structure EntityContext where
  entityType : String
  entityId : String
  budgetId : String
  context : ValueMap
  createdAt : Nat
  updatedAt : Nat
deriving DecidableEq, Repr

/-- The `entity_contexts` collection. -/
abbrev Store := List EntityContext

/-- The Mongo filter `{entityType, entityId, budgetId}` used by `setContext`,
`getContext` and `clearContext`. -/
def keyMatches (et eid bid : String) (r : EntityContext) : Bool :=
  r.entityType == et && r.entityId == eid && r.budgetId == bid

/-- `getContext` (`mongodb-context-service.ts` lines 46-56):
`collection.findOne` on the triple filter. -/
def getContext (st : Store) (et eid bid : String) : Option EntityContext :=
  st.find? (keyMatches et eid bid)

/-- `findOneAndUpdate`'s in-place update of the first matching document. -/
def replaceFirst (et eid bid : String) (r' : EntityContext) :
    Store → Store
  | [] => []
  | r :: rest =>
    if keyMatches et eid bid r then r' :: rest
    else r :: replaceFirst et eid bid r' rest

/-- `setContext` (`mongodb-context-service.ts` lines 27-44):
`findOneAndUpdate` on the triple filter with
`$set: {context, updatedAt: now}`, `$setOnInsert: {entityType, entityId,
budgetId, createdAt: now}`, `upsert: true`, `returnDocument: 'after'`.
Returns the stored document together with the new collection state. -/
def setContext (st : Store) (et eid bid : String) (context : ValueMap)
    (now : Nat) : EntityContext × Store :=
  match getContext st et eid bid with
  | some r =>
    let r' : EntityContext := { r with context := context, updatedAt := now }
    (r', replaceFirst et eid bid r' st)
  | none =>
    let r : EntityContext :=
      { entityType := et, entityId := eid, budgetId := bid, context := context
        createdAt := now, updatedAt := now }
    (r, st ++ [r])

/-- `deleteOne`: removes the first document matching the filter and reports
whether one was deleted (`deletedCount > 0`). -/
def deleteFirst (et eid bid : String) : Store → Bool × Store
  | [] => (false, [])
  | r :: rest =>
    if keyMatches et eid bid r then (true, rest)
    else
      let res := deleteFirst et eid bid rest
      (res.1, r :: res.2)

/-- `clearContext` (`mongodb-context-service.ts` lines 75-86):
`collection.deleteOne` on the triple filter, returning
`result.deletedCount > 0`. -/
def clearContext (st : Store) (et eid bid : String) : Bool × Store :=
  deleteFirst et eid bid st

/-- A `ContextQuery` at runtime: one JavaScript object whose keys may include
the reserved `entityType` / `entityId` / `budgetId` filters and arbitrary
further context-field predicates (`src/context/context.ts`, `ContextQuery`). -/
abbrev ContextQuery := ValueMap

/-- JavaScript truthiness of an optional scalar value (`if (query.entityType)`
etc., lines 61-63): absent, `""`, `0` and `false` are falsy. -/
def truthyValue : Option Value → Bool
  | none => false
  | some (.str s) => s ≠ ""
  | some (.num q) => q ≠ 0
  | some (.bool b) => b

/-- The reserved structured-filter keys
(`['entityType', 'entityId', 'budgetId']`, line 67). -/
def reservedKey (k : String) : Bool :=
  k == "entityType" || k == "entityId" || k == "budgetId"

/-- The `mongoQuery` object built by `searchContext` (lines 59-70): the three
optional top-level filters, and one `context.<key>` predicate per
non-reserved key of the query. -/
structure MongoQuery where
  entityType : Option Value
  entityId : Option Value
  budgetId : Option Value
  contextPreds : List (String × Value)
deriving DecidableEq, Repr

/-- Lines 61-70 of `searchContext`: each reserved key is copied to the
top-level filter only when its value is truthy; every non-reserved key
becomes a `context.<key>` equality predicate unconditionally. -/
def buildMongoQuery (q : ContextQuery) : MongoQuery :=
  { entityType :=
      if truthyValue (lookupVal q "entityType") then lookupVal q "entityType"
      else none
    entityId :=
      if truthyValue (lookupVal q "entityId") then lookupVal q "entityId"
      else none
    budgetId :=
      if truthyValue (lookupVal q "budgetId") then lookupVal q "budgetId"
      else none
    contextPreds := q.filter (fun kv => !reservedKey kv.1) }

/-- Mongo equality match of an optional top-level filter against a string
field. -/
def topFieldMatch (field : String) : Option Value → Bool
  | none => true
  | some v => v == .str field

/-- Whether a document matches the built `mongoQuery`: all top-level filters
and all `context.<key>` equality predicates hold. -/
def mongoMatch (mq : MongoQuery) (r : EntityContext) : Bool :=
  topFieldMatch r.entityType mq.entityType &&
  topFieldMatch r.entityId mq.entityId &&
  topFieldMatch r.budgetId mq.budgetId &&
  mq.contextPreds.all (fun kv => lookupVal r.context kv.1 == some kv.2)

/-- `searchContext` (`mongodb-context-service.ts` lines 58-73):
`collection.find(mongoQuery).toArray()`. -/
def searchContext (st : Store) (q : ContextQuery) : Store :=
  st.filter (mongoMatch (buildMongoQuery q))

/-- Stated from the claim's words, for comparison with `searchContext`: a
record matches when every structured filter that is *present* in the query
(truthy or not) equals the corresponding top-level field, and every
non-reserved entry holds as an equality predicate on `context`. -/
def claimStructuredMatch (q : ContextQuery) (r : EntityContext) : Bool :=
  (match lookupVal q "entityType" with
   | none => true
   | some v => v == .str r.entityType) &&
  (match lookupVal q "entityId" with
   | none => true
   | some v => v == .str r.entityId) &&
  (match lookupVal q "budgetId" with
   | none => true
   | some v => v == .str r.budgetId) &&
  (q.filter (fun kv => !reservedKey kv.1)).all
    (fun kv => lookupVal r.context kv.1 == some kv.2)

/-- Stated from the claim's words, for comparison with `searchContext`. -/
def claimSearchContext (st : Store) (q : ContextQuery) : Store :=
  st.filter (claimStructuredMatch q)

mutual
/-- Stated from the claim's words, for comparison with `convertAmounts`: a
transform that rescales *any* field named `amount`/`balance`/`budgeted`/
`spent` with a numeric value, at any nesting depth, and recurses everywhere
else (also below amount-named keys). -/
def claimConvertAmounts : JValue → JValue
  | .jnull => .jnull
  | .jbool b => .jbool b
  | .jnum q => .jnum q
  | .jstr s => .jstr s
  | .jarr elems => .jarr (claimConvertAmountsList elems)
  | .jobj fields => .jobj (claimConvertAmountsObj fields)

/-- Array case of `claimConvertAmounts`. -/
def claimConvertAmountsList : List JValue → List JValue
  | [] => []
  | v :: vs => claimConvertAmounts v :: claimConvertAmountsList vs

/-- Object case of `claimConvertAmounts`. -/
def claimConvertAmountsObj : List (String × JValue) → List (String × JValue)
  | [] => []
  | (k, v) :: fs =>
    (k,
      match v with
      | .jnum q => if isAmountKey k then .jnum (q / 100) else .jnum q
      | w => claimConvertAmounts w) :: claimConvertAmountsObj fs
end

/-! Paths into a JSON tree, used to state which leaves `convertAmounts`
rescales. -/

/-- One step into a JSON tree: an object field or an array index. -/
inductive PathElem where
  | field (k : String)
  | index (i : Nat)
deriving DecidableEq, Repr

/-- A path into a JSON tree. -/
abbrev JPath := List PathElem

/-- First entry of an object with the given key. -/
def lookupField : List (String × JValue) → String → Option JValue
  | [], _ => none
  | (k, v) :: fs, k' => if k == k' then some v else lookupField fs k'

/-- The subtree of a JSON value at a path, when the path exists. -/
def getAt : JValue → JPath → Option JValue
  | v, [] => some v
  | .jobj fs, .field k :: p =>
    match lookupField fs k with
    | some v => getAt v p
    | none => none
  | .jarr elems, .index i :: p =>
    match elems[i]? with
    | some v => getAt v p
    | none => none
  | _, _ :: _ => none

/-- The paths whose numeric leaf `convertAmounts` rescales: the final step is
an amount-named field, and no earlier field step on the path is amount-named
(array index steps are transparent). -/
def convertedPath : JPath → Bool
  | [] => false
  | .index _ :: p => convertedPath p
  | .field k :: [] => isAmountKey k
  | .field k :: e :: p => !isAmountKey k && convertedPath (e :: p)

/-- The per-entry transform applied by the `Object.entries` loop of
`convertAmounts` (`shared.ts` lines 44-53): an amount key keeps non-numeric
values untouched and rescales numbers; any other key is converted
recursively. -/
def entryTransform (k : String) (v : JValue) : JValue :=
  if isAmountKey k then
    match v with
    | .jnum q => .jnum (q / 100)
    | w => w
  else convertAmounts v

/-- The per-triple uniqueness invariant enforced by the unique compound index
on `{entityType: 1, entityId: 1, budgetId: 1}`
(`mongodb-context-service.ts` lines 15-18). -/
def uniqueKeys (st : Store) : Prop :=
  st.Pairwise fun r s =>
    ¬(r.entityType = s.entityType ∧ r.entityId = s.entityId ∧
      r.budgetId = s.budgetId)

/-! ## Theorems: session manager -/

/-- C10: an empty-string `budgetId` argument is treated exactly as an absent
argument: the call behaves identically to a call without a budget id, the
no-budget-id error is raised when no (non-empty) default is configured, the
empty string is never a download target, and when a non-empty default is
configured the call concerns exactly that default. -/
theorem ensureBudgetLoaded_empty_arg_as_absent
    (downloadBudget : String → Except String Unit)
    (envBudgetId : Option String) (st : ConnState) :
    ensureBudgetLoaded downloadBudget envBudgetId (some "") st =
      ensureBudgetLoaded downloadBudget envBudgetId none st ∧
    ((envBudgetId = none ∨ envBudgetId = some "") →
      (ensureBudgetLoaded downloadBudget envBudgetId (some "") st).1 =
        .error noBudgetIdError) ∧
    (∀ budgetId,
      "" ∉ (ensureBudgetLoaded downloadBudget envBudgetId budgetId st).2.2) ∧
    (∀ t, envBudgetId = some t → t ≠ "" →
      ((ensureBudgetLoaded downloadBudget envBudgetId (some "") st).1 = .ok t ∨
       (ensureBudgetLoaded downloadBudget envBudgetId (some "") st).1 =
         .error (loadFailedError t))) := by
  refine ⟨rfl, ?_, ?_, ?_⟩
  · rintro (rfl | rfl) <;> rfl
  · intro budgetId
    unfold ensureBudgetLoaded
    cases h : jsOr budgetId envBudgetId with
    | none => simp
    | some t =>
      by_cases ht : t = ""
      · simp [ht]
      · simp only [ht, if_false]
        by_cases hc : st.currentBudgetId = some t
        · simp [hc]
        · cases downloadBudget t <;> simp [hc, eq_comm, ht]
  · rintro t rfl hne
    unfold ensureBudgetLoaded
    have : jsOr (some "") (some t) = some t := by simp [jsOr, jsTruthy]
    rw [this]
    simp only [hne, if_false]
    by_cases hc : st.currentBudgetId = some t
    · simp [hc]
    · simp only [hc]
      cases downloadBudget t <;> simp

/-- C10 witness: with no default configured, an empty-string argument raises
the no-budget-id error. -/
theorem ensureBudgetLoaded_empty_arg_as_absent_witness :
    (ensureBudgetLoaded (fun _ => .ok ()) none (some "")
        ⟨false, none⟩).1 = .error noBudgetIdError :=
  (ensureBudgetLoaded_empty_arg_as_absent (fun _ => .ok ()) none
    ⟨false, none⟩).2.1 (Or.inl rfl)

/-- C3 counterexample: on a failed download the raised error does not wrap
the underlying cause — two failures with different cause messages produce
identical errors (a fresh `Error` whose `cause` is absent), so the cause is
not recoverable from what `ensureBudgetLoaded` raises. -/
theorem ensureBudgetLoaded_failure_discards_cause :
    ensureBudgetLoaded (fun _ => .error "connect ECONNREFUSED") none
        (some "B") ⟨true, some "A"⟩ =
      ensureBudgetLoaded (fun _ => .error "request aborted") none
        (some "B") ⟨true, some "A"⟩ ∧
    (ensureBudgetLoaded (fun _ => .error "connect ECONNREFUSED") none
        (some "B") ⟨true, some "A"⟩).1 = .error (loadFailedError "B") ∧
    (loadFailedError "B").cause = none ∧
    ("connect ECONNREFUSED" : String) ≠ "request aborted" :=
  ⟨rfl, rfl, rfl, by decide⟩

/-- C3 amended: on a failed download of a new target, `ensureBudgetLoaded`
raises an error whose message names the attempted budget id but carries no
cause, and leaves the cached current budget id unchanged. -/
theorem ensureBudgetLoaded_failure_names_budget
    (downloadBudget : String → Except String Unit)
    (envBudgetId budgetId : Option String) (st : ConnState) (t c : String)
    (hres : jsOr budgetId envBudgetId = some t) (hne : t ≠ "")
    (hcur : st.currentBudgetId ≠ some t)
    (hdl : downloadBudget t = .error c) :
    (ensureBudgetLoaded downloadBudget envBudgetId budgetId st).1 =
      .error (loadFailedError t) ∧
    (ensureBudgetLoaded downloadBudget envBudgetId budgetId
        st).2.1.currentBudgetId = st.currentBudgetId ∧
    (loadFailedError t).message =
      "Failed to load budget " ++ t ++
        ". Check that the budget ID is correct and accessible. You can find your budget ID in Actual Budget > Settings > Advanced." ∧
    (loadFailedError t).cause = none := by
  unfold ensureBudgetLoaded
  rw [hres]
  simp [hne, hcur, hdl, loadFailedError]

/-- C3 amended, witness at a concrete failing ledger. -/
theorem ensureBudgetLoaded_failure_names_budget_witness :
    (ensureBudgetLoaded (fun _ => .error "boom") none (some "B")
        ⟨true, some "A"⟩).1 = .error (loadFailedError "B") ∧
    (ensureBudgetLoaded (fun _ => .error "boom") none (some "B")
        ⟨true, some "A"⟩).2.1.currentBudgetId = some "A" ∧
    (loadFailedError "B").cause = none := by
  have h := ensureBudgetLoaded_failure_names_budget
    (fun _ => .error "boom") none (some "B") ⟨true, some "A"⟩ "B" "boom"
    rfl (by decide) (by decide) rfl
  exact ⟨h.1, h.2.1, h.2.2.2⟩

/-- C4 counterexample: two consecutive calls with the same id can trigger two
ledger loads — when the first download fails the cache is not updated, so the
second call downloads the same target again. -/
theorem ensureBudgetLoaded_second_call_repeats_failed_load :
    (ensureBudgetLoaded (fun _ => .error "server unreachable") none
        (some "B") ⟨true, none⟩).2.2 = ["B"] ∧
    (ensureBudgetLoaded (fun _ => .error "server unreachable") none (some "B")
        (ensureBudgetLoaded (fun _ => .error "server unreachable") none
          (some "B") ⟨true, none⟩).2.1).2.2 = ["B"] :=
  ⟨rfl, rfl⟩

/-- C4 amended: a call whose target equals the cached id returns immediately
with no download; a call for a new target downloads exactly once and updates
the cache only on success; and when a call succeeds, a consecutive call with
the same argument downloads nothing, so two consecutive same-id calls trigger
at most one load provided the first does not fail. -/
theorem ensureBudgetLoaded_load_discipline
    (downloadBudget : String → Except String Unit)
    (envBudgetId budgetId : Option String) (st : ConnState) (t : String)
    (hres : jsOr budgetId envBudgetId = some t) (hne : t ≠ "") :
    (st.currentBudgetId = some t →
      ensureBudgetLoaded downloadBudget envBudgetId budgetId st =
        (.ok t, { st with isInitialized := true }, [])) ∧
    (st.currentBudgetId ≠ some t →
      (ensureBudgetLoaded downloadBudget envBudgetId budgetId st).2.2 = [t] ∧
      (∀ u, downloadBudget t = .ok u →
        ensureBudgetLoaded downloadBudget envBudgetId budgetId st =
          (.ok t, { isInitialized := true, currentBudgetId := some t }, [t])) ∧
      (∀ c, downloadBudget t = .error c →
        (ensureBudgetLoaded downloadBudget envBudgetId budgetId
            st).2.1.currentBudgetId = st.currentBudgetId)) ∧
    (∀ u, (ensureBudgetLoaded downloadBudget envBudgetId budgetId st).1 =
        .ok u →
      (ensureBudgetLoaded downloadBudget envBudgetId budgetId
          (ensureBudgetLoaded downloadBudget envBudgetId budgetId
            st).2.1).2.2 = [] ∧
      (ensureBudgetLoaded downloadBudget envBudgetId budgetId
          st).2.2.length ≤ 1) := by
  have key : ∀ s1 : ConnState, ensureBudgetLoaded downloadBudget envBudgetId
      budgetId s1 =
      if s1.currentBudgetId = some t then
        (.ok t, { s1 with isInitialized := true }, [])
      else
        match downloadBudget t with
        | .ok _ => (.ok t, { isInitialized := true, currentBudgetId := some t }, [t])
        | .error _ => (.error (loadFailedError t), { s1 with isInitialized := true }, [t]) := by
    intro s1
    unfold ensureBudgetLoaded
    rw [hres]
    simp only [hne, if_false]
  refine ⟨?_, ?_, ?_⟩
  · intro hc; rw [key st]; simp [hc]
  · intro hc
    rw [key st]
    simp only [hc, if_false]
    cases hdl : downloadBudget t with
    | ok u => exact ⟨rfl, fun _ _ => rfl, fun c hc' => by simp [hdl] at hc'⟩
    | error c => exact ⟨rfl, fun u hu => by simp [hdl] at hu, fun _ _ => rfl⟩
  · intro u hu
    rw [key st] at hu ⊢
    by_cases hc : st.currentBudgetId = some t
    · simp only [hc, if_true] at hu ⊢
      rw [key _]
      simp [hc]
    · simp only [hc, if_false] at hu ⊢
      cases hdl : downloadBudget t with
      | ok w =>
        simp only [hdl] at hu ⊢
        rw [key _]
        simp
      | error c => simp [hdl] at hu

/-- C4 amended, witness: loading a new budget over a cached one downloads it
once and updates the cache. -/
theorem ensureBudgetLoaded_load_discipline_witness :
    ensureBudgetLoaded (fun _ => .ok ()) none (some "B") ⟨true, some "A"⟩ =
      (.ok "B", { isInitialized := true, currentBudgetId := some "B" },
        ["B"]) := by
  have h := ensureBudgetLoaded_load_discipline (fun _ => .ok ()) none
    (some "B") ⟨true, some "A"⟩ "B" rfl (by decide)
  exact (h.2.1 (by decide)).2.1 () rfl

/-- C1: `ensureBudgetLoaded` has no mutual-exclusion or single-flight guard —
from a state with budget `A` cached, two concurrent invocations requesting
`B` and `C` can both pass the cache check and be suspended on their ledger
downloads at the same time, i.e. the interleaving semantics reaches a state
with two budget switches in flight, so budget switches are not serialized. -/
theorem ensureBudgetLoaded_switches_not_serialized :
    Relation.ReflTransGen (SysStep none (some "B") (some "C"))
      ⟨.start, .start, some "A"⟩
      ⟨.downloading "B", .downloading "C", some "A"⟩ := by
  have s1 : SysStep none (some "B") (some "C") ⟨.start, .start, some "A"⟩
      ⟨.downloading "B", .start, some "A"⟩ :=
    SysStep.left (ThreadStep.beginDownload _ "B" rfl (by decide) (by decide))
  have s2 : SysStep none (some "B") (some "C")
      ⟨.downloading "B", .start, some "A"⟩
      ⟨.downloading "B", .downloading "C", some "A"⟩ :=
    SysStep.right (ThreadStep.beginDownload _ "C" rfl (by decide) (by decide))
  exact Relation.ReflTransGen.head s1 (Relation.ReflTransGen.single s2)

/-! ## Theorems: annotation store -/

theorem keyMatches_of_getContext {st : Store} {et eid bid : String}
    {r : EntityContext} (h : getContext st et eid bid = some r) :
    keyMatches et eid bid r = true :=
  List.find?_some h

theorem fields_of_keyMatches {et eid bid : String} {r : EntityContext}
    (h : keyMatches et eid bid r = true) :
    r.entityType = et ∧ r.entityId = eid ∧ r.budgetId = bid := by
  simpa [keyMatches, and_assoc] using h

theorem getContext_replaceFirst {st : Store} {et eid bid : String}
    {r r' : EntityContext} (h : getContext st et eid bid = some r)
    (h' : keyMatches et eid bid r' = true) :
    getContext (replaceFirst et eid bid r' st) et eid bid = some r' := by
  induction st with
  | nil => simp [getContext] at h
  | cons r0 rest ih =>
    cases hb : keyMatches et eid bid r0 with
    | true =>
      simp only [replaceFirst, hb, if_true]
      simp [getContext, List.find?_cons_of_pos _ h']
    | false =>
      have hb' : ¬(keyMatches et eid bid r0 = true) := by simp [hb]
      simp only [replaceFirst, hb, Bool.false_eq_true, if_false]
      unfold getContext at h ⊢
      rw [List.find?_cons_of_neg _ hb'] at h
      rw [List.find?_cons_of_neg _ hb']
      exact ih h

theorem getContext_append_self {st : Store} {et eid bid : String}
    (h : getContext st et eid bid = none) {r : EntityContext}
    (h' : keyMatches et eid bid r = true) :
    getContext (st ++ [r]) et eid bid = some r := by
  unfold getContext at h ⊢
  rw [List.find?_append, h]
  simp [h']

/-- C5: `setContext` is an upsert keyed by the triple: a first insert stores
the record with `createdAt = now = updatedAt`; a call on an existing key
replaces `context` entirely and advances `updatedAt` while preserving the
original `createdAt` and the key fields; and in both cases the returned
record is exactly the record the store now holds for that key. -/
theorem setContext_upsert (st : Store) (et eid bid : String)
    (data : ValueMap) (now : Nat) :
    (getContext st et eid bid = none →
      (setContext st et eid bid data now).1 =
        { entityType := et, entityId := eid, budgetId := bid
          context := data, createdAt := now, updatedAt := now }) ∧
    (∀ r, getContext st et eid bid = some r →
      (setContext st et eid bid data now).1 =
        { r with context := data, updatedAt := now } ∧
      (setContext st et eid bid data now).1.createdAt = r.createdAt ∧
      (setContext st et eid bid data now).1.entityType = et ∧
      (setContext st et eid bid data now).1.entityId = eid ∧
      (setContext st et eid bid data now).1.budgetId = bid) ∧
    (getContext (setContext st et eid bid data now).2 et eid bid =
      some (setContext st et eid bid data now).1) := by
  refine ⟨?_, ?_, ?_⟩
  · intro h; simp [setContext, h]
  · intro r h
    have hf := fields_of_keyMatches (keyMatches_of_getContext h)
    refine ⟨?_, ?_, ?_, ?_, ?_⟩ <;> simp [setContext, h, hf.1, hf.2.1, hf.2.2]
  · cases h : getContext st et eid bid with
    | none =>
      simp only [setContext, h]
      exact getContext_append_self h (by simp [keyMatches])
    | some r =>
      have hk := keyMatches_of_getContext h
      have hf := fields_of_keyMatches hk
      simp only [setContext, h]
      exact getContext_replaceFirst h (by simp [keyMatches, hf.1, hf.2.1, hf.2.2])

/-- C5 witness: first insert then update on the same key: the second call
preserves `createdAt = 10`, advances `updatedAt` to `20`, replaces `context`,
and stores what it returns. -/
theorem setContext_upsert_witness :
    (setContext [] "account" "a1" "b1" [("currency", Value.str "GBP")]
        10).1.createdAt = 10 ∧
    (setContext [] "account" "a1" "b1" [("currency", Value.str "GBP")]
        10).1.updatedAt = 10 ∧
    (setContext (setContext [] "account" "a1" "b1"
        [("currency", Value.str "GBP")] 10).2 "account" "a1" "b1"
        [("notes", Value.str "emergency fund")] 20).1 =
      { entityType := "account", entityId := "a1", budgetId := "b1"
        context := [("notes", Value.str "emergency fund")]
        createdAt := 10, updatedAt := 20 } := by
  have h1 := setContext_upsert [] "account" "a1" "b1"
    [("currency", Value.str "GBP")] 10
  have e1 := h1.1 rfl
  have h2 := setContext_upsert (setContext [] "account" "a1" "b1"
    [("currency", Value.str "GBP")] 10).2 "account" "a1" "b1"
    [("notes", Value.str "emergency fund")] 20
  have e2 := (h2.2.1 _ rfl).1
  exact ⟨by rw [e1], by rw [e1], by rw [e2]⟩

theorem deleteFirst_eq_true_iff {et eid bid : String} :
    ∀ {st : Store}, (deleteFirst et eid bid st).1 = true ↔
      ∃ r ∈ st, keyMatches et eid bid r = true := by
  intro st
  induction st with
  | nil => simp [deleteFirst]
  | cons r0 rest ih =>
    cases hb : keyMatches et eid bid r0 with
    | true => simp [deleteFirst, hb]
    | false =>
      simp only [deleteFirst, hb, Bool.false_eq_true, if_false]
      simp only [List.mem_cons]
      constructor
      · intro h
        obtain ⟨r, hr, hk⟩ := ih.mp h
        exact ⟨r, Or.inr hr, hk⟩
      · rintro ⟨r, hr | hr, hk⟩
        · subst hr; simp [hk] at hb
        · exact ih.mpr ⟨r, hr, hk⟩

theorem deleteFirst_not_found {et eid bid : String} :
    ∀ {st : Store}, (deleteFirst et eid bid st).1 = false →
      (deleteFirst et eid bid st).2 = st := by
  intro st
  induction st with
  | nil => intro; rfl
  | cons r0 rest ih =>
    cases hb : keyMatches et eid bid r0 with
    | true => simp [deleteFirst, hb]
    | false =>
      simp only [deleteFirst, hb, Bool.false_eq_true, if_false]
      intro h
      simpa using ih h

theorem deleteFirst_length {et eid bid : String} :
    ∀ {st : Store}, (deleteFirst et eid bid st).2.length =
      st.length - (if (deleteFirst et eid bid st).1 then 1 else 0) := by
  intro st
  induction st with
  | nil => rfl
  | cons r0 rest ih =>
    cases hb : keyMatches et eid bid r0 with
    | true => simp [deleteFirst, hb]
    | false =>
      simp only [deleteFirst, hb, Bool.false_eq_true, if_false,
        List.length_cons]
      rw [ih]
      cases hfound : (deleteFirst et eid bid rest).1 with
      | true =>
        have := deleteFirst_eq_true_iff.mp hfound
        simp only [if_true]
        have hlen : 1 ≤ rest.length := by
          obtain ⟨r, hr, _⟩ := this
          exact List.length_pos.mpr (List.ne_nil_of_mem hr)
        omega
      | false => simp

/-- C8: `clearContext` deletes at most one record and returns `true` exactly
when a record with the key existed: on a store satisfying the unique-index
invariant it returns `true` iff the key is present, removes exactly one
record in that case and none otherwise, and a repeated call on the resulting
store returns `false`. -/
theorem clearContext_deletes_once (st : Store) (et eid bid : String)
    (huniq : uniqueKeys st) :
    ((clearContext st et eid bid).1 = true ↔
      ∃ r ∈ st, keyMatches et eid bid r = true) ∧
    ((clearContext st et eid bid).2.length =
      st.length - (if (clearContext st et eid bid).1 then 1 else 0)) ∧
    ((clearContext st et eid bid).1 = false →
      (clearContext st et eid bid).2 = st) ∧
    ((clearContext (clearContext st et eid bid).2 et eid bid).1 = false) := by
  refine ⟨deleteFirst_eq_true_iff, deleteFirst_length,
    deleteFirst_not_found, ?_⟩
  unfold clearContext
  induction st with
  | nil => rfl
  | cons r0 rest ih =>
    rw [uniqueKeys, List.pairwise_cons] at huniq
    cases hb : keyMatches et eid bid r0 with
    | true =>
      simp only [deleteFirst, hb, if_true]
      have hf := fields_of_keyMatches hb
      rw [Bool.eq_false_iff]
      intro hfound
      obtain ⟨r, hr, hk⟩ := deleteFirst_eq_true_iff.mp hfound
      have hfr := fields_of_keyMatches hk
      exact huniq.1 r hr
        (by simp [hf.1, hf.2.1, hf.2.2, hfr.1, hfr.2.1, hfr.2.2])
    | false =>
      have hb' : ¬(keyMatches et eid bid r0 = true) := by simp [hb]
      simp only [deleteFirst, hb, Bool.false_eq_true, if_false]
      have := ih huniq.2
      simpa [deleteFirst, hb] using this

/-- C8 witness: for a concrete singleton store, `clearContext` returns `true`
once and `false` on the repeated call and for a never-existing key. -/
theorem clearContext_deletes_once_witness :
    (clearContext [⟨"account", "a1", "b1", [], 0, 0⟩] "account" "a1"
        "b1").1 = true ∧
    (clearContext (clearContext [⟨"account", "a1", "b1", [], 0, 0⟩]
        "account" "a1" "b1").2 "account" "a1" "b1").1 = false ∧
    (clearContext [⟨"account", "a1", "b1", [], 0, 0⟩] "account" "a1"
        "zz").1 = false := by
  have h := clearContext_deletes_once [⟨"account", "a1", "b1", [], 0, 0⟩]
    "account" "a1" "b1" (by simp [uniqueKeys])
  refine ⟨h.1.mpr ⟨⟨"account", "a1", "b1", [], 0, 0⟩, by simp, by decide⟩,
    h.2.2.2, by decide⟩

theorem topFieldMatch_truthy_iff (field : String) (o : Option Value) :
    topFieldMatch field (if truthyValue o then o else none) = true ↔
      (truthyValue o = true → o = some (.str field)) := by
  cases ht : truthyValue o with
  | false => simp [topFieldMatch]
  | true =>
    simp only [if_true, ht, forall_const]
    cases o with
    | none => simp [truthyValue] at ht
    | some v => cases v <;> simp [topFieldMatch]

theorem contextPreds_all_iff (q : ContextQuery) (c : ValueMap) :
    (((q.filter fun kv => !reservedKey kv.1).all
        fun kv => lookupVal c kv.1 == some kv.2) = true) ↔
      (∀ k v, (k, v) ∈ q → reservedKey k = false → lookupVal c k = some v) := by
  rw [List.all_eq_true]
  constructor
  · intro h k v hm hres
    have := h (k, v) (List.mem_filter.mpr ⟨hm, by simp [hres]⟩)
    simpa using this
  · rintro h ⟨k, v⟩ hm
    rw [List.mem_filter] at hm
    have := h k v hm.1 (by simpa using hm.2)
    simp [this]

/-- C7 counterexample: a present structured filter with an empty-string value
is falsy and silently dropped — `searchContext` with the query
`{entityId: ""}` returns a record whose `entityId` is `"x"`, while the claim
(applying every present structured filter, embodied by `claimSearchContext`)
returns nothing. -/
theorem searchContext_ignores_empty_filter :
    searchContext [⟨"account", "x", "b", [], 0, 0⟩]
        [("entityId", .str "")] = [⟨"account", "x", "b", [], 0, 0⟩] ∧
    claimSearchContext [⟨"account", "x", "b", [], 0, 0⟩]
        [("entityId", .str "")] = [] ∧
    searchContext [⟨"account", "x", "b", [], 0, 0⟩]
        [("entityId", .str "")] ≠
      claimSearchContext [⟨"account", "x", "b", [], 0, 0⟩]
        [("entityId", .str "")] := by
  refine ⟨by decide, by decide, by decide⟩

/-- C7 amended: `searchContext` returns exactly the stored records that
satisfy all structured filters that are present with truthy (non-empty)
values — a falsy structured filter value is treated as absent — and all
extra equality predicates against `context` fields; a query with only a
non-empty `budgetId` returns exactly the records with that budget id across
all entity types (and the result is the empty list, never an error, when
nothing matches). -/
theorem searchContext_truthy_filters (st : Store) (q : ContextQuery) :
    (∀ r, r ∈ searchContext st q ↔
      r ∈ st ∧
      (truthyValue (lookupVal q "entityType") = true →
        lookupVal q "entityType" = some (.str r.entityType)) ∧
      (truthyValue (lookupVal q "entityId") = true →
        lookupVal q "entityId" = some (.str r.entityId)) ∧
      (truthyValue (lookupVal q "budgetId") = true →
        lookupVal q "budgetId" = some (.str r.budgetId)) ∧
      (∀ k v, (k, v) ∈ q → reservedKey k = false →
        lookupVal r.context k = some v)) ∧
    (∀ B, B ≠ "" →
      searchContext st [("budgetId", .str B)] =
        st.filter fun r => r.budgetId == B) := by
  constructor
  · intro r
    rw [searchContext, List.mem_filter, and_congr_right_iff]
    intro _
    rw [show mongoMatch (buildMongoQuery q) r = true ↔ _ from Iff.rfl]
    simp only [mongoMatch, Bool.and_eq_true, buildMongoQuery]
    rw [topFieldMatch_truthy_iff, topFieldMatch_truthy_iff,
      topFieldMatch_truthy_iff, contextPreds_all_iff]
    tauto
  · intro B hB
    rw [searchContext]
    apply List.filter_congr
    intro r _
    show mongoMatch (buildMongoQuery [("budgetId", .str B)]) r =
      (r.budgetId == B)
    simp only [mongoMatch, buildMongoQuery, lookupVal, truthyValue,
      topFieldMatch, reservedKey, List.find?]
    by_cases h : r.budgetId = B
    · simp [h, hB]
    · simp [h, hB, beq_eq_false_iff_ne, Ne.symm h]

/-- C7 amended, witness: a budget-id-only query over a concrete store. -/
theorem searchContext_truthy_filters_witness :
    searchContext [⟨"owner", "o", "b", [], 0, 0⟩]
        [("budgetId", .str "b")] =
      List.filter (fun r => r.budgetId == "b")
        [⟨"owner", "o", "b", [], 0, 0⟩] :=
  (searchContext_truthy_filters [⟨"owner", "o", "b", [], 0, 0⟩]
    [("budgetId", .str "b")]).2 "b" (by decide)

theorem all_congr_mem {α : Type} {l : List α} {f g : α → Bool}
    (h : ∀ a ∈ l, f a = g a) : l.all f = l.all g := by
  induction l with
  | nil => rfl
  | cons a l ih => simp_all [List.all_cons]

/-- C9: the reserved keys `entityType` / `entityId` / `budgetId` of a query
only ever act through the top-level structured filter — the built Mongo
query's context predicates are exactly the non-reserved entries, so a
`context` field literally named `entityType` / `entityId` / `budgetId` can
never be matched as a context-field predicate: the match result is invariant
under changing `context` at reserved keys. -/
theorem searchContext_reserved_keys_structural (q : ContextQuery) :
    ((buildMongoQuery q).contextPreds =
      q.filter fun kv => !reservedKey kv.1) ∧
    (∀ k v, (k, v) ∈ (buildMongoQuery q).contextPreds →
      (k ≠ "entityType" ∧ k ≠ "entityId" ∧ k ≠ "budgetId") ∧ (k, v) ∈ q) ∧
    (∀ k v, (k, v) ∈ q → reservedKey k = false →
      (k, v) ∈ (buildMongoQuery q).contextPreds) ∧
    (∀ (r : EntityContext) (c' : ValueMap),
      (∀ k, reservedKey k = false → lookupVal c' k = lookupVal r.context k) →
      mongoMatch (buildMongoQuery q) { r with context := c' } =
        mongoMatch (buildMongoQuery q) r) := by
  refine ⟨rfl, ?_, ?_, ?_⟩
  · intro k v hm
    rw [show (buildMongoQuery q).contextPreds =
      q.filter fun kv => !reservedKey kv.1 from rfl, List.mem_filter] at hm
    have hres : reservedKey k = false := by simpa using hm.2
    simp only [reservedKey, Bool.or_eq_false_iff, beq_eq_false_iff_ne] at hres
    exact ⟨⟨hres.1.1, hres.1.2, hres.2⟩, hm.1⟩
  · intro k v hm hres
    exact List.mem_filter.mpr ⟨hm, by simp [hres]⟩
  · intro r c' hc
    simp only [mongoMatch]
    congr 1
    apply all_congr_mem
    rintro ⟨k, v⟩ hm
    rw [show (buildMongoQuery q).contextPreds =
      q.filter fun kv => !reservedKey kv.1 from rfl, List.mem_filter] at hm
    have hres : reservedKey k = false := by simpa using hm.2
    simp [hc k hres]

/-- C9 witness: a query filtering on `entityType` treats it as a top-level
filter — a record whose `context` contains an `entityType` entry with the
queried value matches exactly as if that entry were absent. -/
theorem searchContext_reserved_keys_structural_witness :
    mongoMatch (buildMongoQuery [("entityType", .str "hidden")])
        ⟨"owner", "o", "b", [("entityType", .str "hidden")], 0, 0⟩ =
      mongoMatch (buildMongoQuery [("entityType", .str "hidden")])
        ⟨"owner", "o", "b", [], 0, 0⟩ := by
  have h := (searchContext_reserved_keys_structural
    [("entityType", .str "hidden")]).2.2.2
    ⟨"owner", "o", "b", [], 0, 0⟩ [("entityType", .str "hidden")]
  apply h
  intro k hres
  simp only [reservedKey, Bool.or_eq_false_iff, beq_eq_false_iff_ne] at hres
  have hk : ("entityType" == k) = false :=
    beq_eq_false_iff_ne.mpr (Ne.symm hres.1.1)
  simp [lookupVal, List.find?, hk]

/-! ## Theorems: balance projector -/

theorem historyLoop_length (bal : Int → Int) (txns : List Transaction) :
    ∀ (n : Nat) (dayBefore d : Int),
      (historyLoop bal txns dayBefore d n).length = n := by
  intro n
  induction n with
  | zero => intro _ _; rfl
  | succ n ih => intro dayBefore d; simp [historyLoop, ih]

theorem historyLoop_get? (bal : Int → Int) (txns : List Transaction) :
    ∀ (n : Nat) (d : Int) (i : Nat), i < n →
      (historyLoop bal txns (bal (d - 1)) d n).get? i =
        some { date := d + i
               endOfDayBalance := integerToAmount (bal (d + i))
               theoreticalPeakIntradayBalance :=
                 integerToAmount (bal (d + i - 1) +
                   positiveDayAmounts txns (d + i)) } := by
  intro n
  induction n with
  | zero => intro d i hi; exact absurd hi (Nat.not_lt_zero i)
  | succ n ih =>
    intro d i hi
    cases i with
    | zero => simp [historyLoop]
    | succ j =>
      have hj : j < n := by omega
      have hd : bal d = bal ((d + 1) - 1) := by norm_num
      have harg : (d + 1) + (j : Int) = d + ((j : Nat) + 1 : Nat) := by
        push_cast; ring
      rw [historyLoop, List.get?_cons_succ, hd, ih (d + 1) j hj, harg]

theorem positiveDayAmounts_foldl (l : List Transaction) :
    ∀ acc : Int,
      l.foldl (fun acc t =>
          if t.amount ≠ 0 ∧ t.amount > 0 then acc + t.amount else acc) acc =
        acc + ((l.filter fun t => 0 < t.amount).map Transaction.amount).sum := by
  induction l with
  | nil => intro acc; simp
  | cons t l ih =>
    intro acc
    by_cases h : 0 < t.amount
    · have hcond : t.amount ≠ 0 ∧ t.amount > 0 := ⟨by omega, h⟩
      simp only [List.foldl_cons, if_pos hcond, List.filter_cons,
        decide_eq_true h, if_true]
      rw [ih]
      simp only [List.map_cons, List.sum_cons]
      ring
    · have hcond : ¬(t.amount ≠ 0 ∧ t.amount > 0) := fun hc => h hc.2
      simp only [List.foldl_cons, if_neg hcond, List.filter_cons]
      have : decide (0 < t.amount) = false := by simp [h]
      rw [this]
      simp only [Bool.false_eq_true, if_false]
      exact ih acc

/-- C2: for every account-balance function and transaction list, the balance
history over `[startDate, endDate)` has exactly one point per day, in
ascending date order (the point at offset `i` is for day `startDate + i`),
with `endOfDayBalance` the converted ledger balance of that day and
`theoreticalPeakIntradayBalance` the converted previous-day balance plus the
day's strictly-positive transaction amounts; `startDate = endDate` yields the
empty history; and the positive-amount reduction equals the sum over the
day's transactions with amount strictly greater than zero. -/
theorem getAccountBalanceHistory_points (bal : Int → Int)
    (txns : List Transaction) (startDate endDate : Int) :
    (getAccountBalanceHistory bal txns startDate endDate).length =
      (endDate - startDate).toNat ∧
    (∀ i : Nat, (i : Int) < endDate - startDate →
      (getAccountBalanceHistory bal txns startDate endDate).get? i =
        some { date := startDate + i
               endOfDayBalance := integerToAmount (bal (startDate + i))
               theoreticalPeakIntradayBalance :=
                 integerToAmount (bal (startDate + i - 1) +
                   positiveDayAmounts txns (startDate + i)) }) ∧
    (startDate = endDate →
      getAccountBalanceHistory bal txns startDate endDate = []) ∧
    (∀ d, positiveDayAmounts txns d =
      (((txns.filter fun t => t.date = d).filter
        fun t => 0 < t.amount).map Transaction.amount).sum) := by
  refine ⟨historyLoop_length bal txns _ _ _, ?_, ?_, ?_⟩
  · intro i hi
    exact historyLoop_get? bal txns _ startDate i (by omega)
  · intro h
    subst h
    simp [getAccountBalanceHistory, historyLoop]
  · intro d
    unfold positiveDayAmounts
    rw [positiveDayAmounts_foldl]
    simp

/-- C2 witness: with ledger balances `bal d = d`, one credit of `7` and one
debit of `-3` on day `5`, the first point of the history over `[5, 7)` is day
`5` with end-of-day balance `5` and theoretical peak `4 + 7`; an empty range
gives the empty history. -/
theorem getAccountBalanceHistory_points_witness :
    (getAccountBalanceHistory (fun d => d) [⟨5, 7⟩, ⟨5, -3⟩] 5 7).get? 0 =
      some { date := 5, endOfDayBalance := integerToAmount 5
             theoreticalPeakIntradayBalance := integerToAmount (4 + 7) } ∧
    getAccountBalanceHistory (fun d => d) [] 3 3 = [] := by
  have h := getAccountBalanceHistory_points (fun d => d) [⟨5, 7⟩, ⟨5, -3⟩] 5 7
  have h0 := h.2.1 0 (by decide)
  have h2 := getAccountBalanceHistory_points (fun d => d) [] 3 3
  constructor
  · rw [h0]
    norm_num [positiveDayAmounts]
  · exact h2.2.2.1 rfl

/-! ## Theorems: amount conversion -/

theorem convertAmountsList_getElem? :
    ∀ (l : List JValue) (i : Nat),
      (convertAmountsList l)[i]? = l[i]?.map convertAmounts := by
  intro l
  induction l with
  | nil => intro i; simp [convertAmountsList]
  | cons v vs ih =>
    intro i
    cases i with
    | zero => simp [convertAmountsList]
    | succ j => simpa [convertAmountsList] using ih j

theorem convertAmountsObj_lookupField :
    ∀ (fs : List (String × JValue)) (k : String),
      lookupField (convertAmountsObj fs) k =
        (lookupField fs k).map (entryTransform k) := by
  intro fs
  induction fs with
  | nil => intro k; rfl
  | cons kv fs ih =>
    intro k
    obtain ⟨k0, v0⟩ := kv
    by_cases h : (k0 == k) = true
    · have hk : k0 = k := by simpa using h
      subst hk
      simp [convertAmountsObj, lookupField, entryTransform]
    · simp [convertAmountsObj, lookupField, h, ih]

/-- C6 counterexample: `convertAmounts` does not recurse below an amount-named
key — for the input `{balance: {amount: 100}}` it leaves the nested numeric
`amount` field at `100`, whereas the claim (every amount-named field anywhere
in the tree, embodied by `claimConvertAmounts`) would rescale it to `1`. -/
theorem convertAmounts_nested_counterexample :
    convertAmounts (.jobj [("balance", .jobj [("amount", .jnum 100)])]) =
      .jobj [("balance", .jobj [("amount", .jnum 100)])] ∧
    claimConvertAmounts
        (.jobj [("balance", .jobj [("amount", .jnum 100)])]) =
      .jobj [("balance", .jobj [("amount", .jnum 1)])] ∧
    convertAmounts (.jobj [("balance", .jobj [("amount", .jnum 100)])]) ≠
      claimConvertAmounts
        (.jobj [("balance", .jobj [("amount", .jnum 100)])]) := by
  refine ⟨rfl, ?_, ?_⟩
  · norm_num [claimConvertAmounts, claimConvertAmountsObj, isAmountKey]
  · intro h
    norm_num [convertAmounts, convertAmountsObj, claimConvertAmounts,
      claimConvertAmountsObj, isAmountKey] at h

/-- C6 amended: `convertAmounts` rescales by `1/100` exactly the numeric
leaves whose path ends in an amount-named field with no amount-named field
step strictly above it (array indices are transparent); every other leaf —
non-numeric leaves anywhere, and numeric leaves on other paths, including
below an amount-named key — is left unchanged, and the tree shape is
preserved (a path exists in the output iff it exists in the input). -/
theorem convertAmounts_getAt :
    ∀ (p : JPath) (v : JValue),
      (∀ q : ℚ, getAt v p = some (.jnum q) →
        getAt (convertAmounts v) p =
          some (.jnum (if convertedPath p then q / 100 else q))) ∧
      (∀ s, getAt v p = some (.jstr s) →
        getAt (convertAmounts v) p = some (.jstr s)) ∧
      (∀ b, getAt v p = some (.jbool b) →
        getAt (convertAmounts v) p = some (.jbool b)) ∧
      (getAt v p = some .jnull → getAt (convertAmounts v) p = some .jnull) ∧
      ((getAt (convertAmounts v) p).isSome = (getAt v p).isSome) := by
  intro p
  induction p with
  | nil =>
    intro v
    cases v <;> simp [getAt, convertAmounts, convertedPath]
  | cons el rest ih =>
    intro v
    cases el with
    | index i =>
      cases v with
      | jarr elems =>
        cases hw : elems[i]? with
        | none =>
          have hconv := convertAmountsList_getElem? elems i
          rw [hw] at hconv
          simp [getAt, convertAmounts, hconv, hw]
        | some w =>
          have hconv := convertAmountsList_getElem? elems i
          rw [hw] at hconv
          have ihw := ih w
          simp only [getAt, convertAmounts, hconv, hw, Option.map_some']
          simpa [convertedPath] using ihw
      | jnull => simp [getAt, convertAmounts]
      | jbool b => simp [getAt, convertAmounts]
      | jnum q => simp [getAt, convertAmounts]
      | jstr s => simp [getAt, convertAmounts]
      | jobj fs => simp [getAt, convertAmounts]
    | field k =>
      cases v with
      | jobj fs =>
        cases hw : lookupField fs k with
        | none =>
          have hconv := convertAmountsObj_lookupField fs k
          rw [hw] at hconv
          simp [getAt, convertAmounts, hconv, hw]
        | some w =>
          have hconv := convertAmountsObj_lookupField fs k
          rw [hw] at hconv
          simp only [getAt, convertAmounts, hconv, hw, Option.map_some']
          by_cases hk : isAmountKey k = true
          · cases rest with
            | nil =>
              cases w <;>
                simp [entryTransform, hk, getAt, convertedPath]
            | cons e rest' =>
              have hcp : convertedPath (.field k :: e :: rest') = false := by
                simp [convertedPath, hk]
              cases w with
              | jnum q =>
                cases e <;> simp [entryTransform, hk, getAt]
              | jnull => simp [entryTransform, hk, hcp]
              | jbool b => simp [entryTransform, hk, hcp]
              | jstr s => simp [entryTransform, hk, hcp]
              | jarr es => simp [entryTransform, hk, hcp]
              | jobj fs' => simp [entryTransform, hk, hcp]
          · simp only [Bool.not_eq_true] at hk
            have ihw := ih w
            cases rest with
            | nil =>
              have hcp : convertedPath [.field k] = false := by
                simp [convertedPath, hk]
              simp only [entryTransform, hk, Bool.false_eq_true, if_false,
                hcp]
              exact ihw
            | cons e rest' =>
              have hcp : convertedPath (.field k :: e :: rest') =
                  convertedPath (e :: rest') := by
                simp [convertedPath, hk]
              simp only [entryTransform, hk, Bool.false_eq_true, if_false,
                hcp]
              exact ihw
      | jnull => simp [getAt, convertAmounts]
      | jbool b => simp [getAt, convertAmounts]
      | jnum q => simp [getAt, convertAmounts]
      | jstr s => simp [getAt, convertAmounts]
      | jarr elems => simp [getAt, convertAmounts]

/-- C6 amended, witness: in `{a: {amount: 200}}` the path `a.amount` is
rescaled to `2`. -/
theorem convertAmounts_getAt_witness :
    getAt (convertAmounts (.jobj [("a", .jobj [("amount", .jnum 200)])]))
        [.field "a", .field "amount"] = some (.jnum 2) := by
  have h := (convertAmounts_getAt [.field "a", .field "amount"]
    (.jobj [("a", .jobj [("amount", .jnum 200)])])).1 200 rfl
  have hcp : convertedPath [.field "a", .field "amount"] = true := by decide
  rw [h, hcp]
  norm_num

end ActualMCP
